import Mathlib

/-!
Shallow embedding of the language-learning chatbot (`src/main.py`):
string parsing helpers (Python `str.split`, `str.strip`, `str.lower`,
substring search, `re.sub` of reasoning tags), the mistake-logging step
`correct_input`, the scene catalog `get_scene_options`, the review
renderer `review_mistakes`, and the Streamlit session state machine
from `main`, together with theorems settling the frozen claims.
Text is modelled as `List Char`.
-/

namespace LangBot

/-- Text, modelled as a list of characters. -/
abbrev Str := List Char

/-- ASCII whitespace as stripped by Python `str.strip()`. -/
def pyWs (c : Char) : Bool :=
  c == ' ' || c == '\t' || c == '\n' || c == '\x0d' || c == '\x0b' || c == '\x0c'

/-- Python `s.strip()`: drop leading and trailing whitespace. -/
def pyStrip (s : Str) : Str :=
  (((s.dropWhile pyWs).reverse).dropWhile pyWs).reverse

/-- Index of the leftmost occurrence of `pat` in `s`, if any. -/
def firstIdx (pat s : Str) : Option Nat :=
  match s with
  | [] => if pat.isEmpty then some 0 else none
  | _ :: rest =>
    if pat.isPrefixOf s then some 0
    else (firstIdx pat rest).map (· + 1)

/-- Python `pat in s`: substring containment. -/
def containsSub (pat s : Str) : Bool :=
  (firstIdx pat s).isSome

/-- Python `s.lower()` (ASCII letters). -/
def pyLower (s : Str) : Str :=
  s.map Char.toLower

theorem firstIdx_some_bound {pat s : Str} {i : Nat}
    (h : firstIdx pat s = some i) : i + pat.length ≤ s.length := by
  induction s generalizing i with
  | nil =>
    unfold firstIdx at h
    by_cases hp : pat.isEmpty
    · simp [hp] at h
      subst h
      simp [List.isEmpty_iff.mp hp]
    · simp [hp] at h
  | cons c rest ih =>
    unfold firstIdx at h
    by_cases hp : pat.isPrefixOf (c :: rest)
    · simp [hp] at h
      subst h
      simpa using List.IsPrefix.length_le (List.isPrefixOf_iff_prefix.mp hp)
    · simp [hp, Option.map_eq_some] at h
      obtain ⟨j, hj, rfl⟩ := h
      have := ih hj
      simp [List.length_cons]
      omega

/-- Fuelled worker for `pySplit`; the fuel only serves to make the
recursion structural and is always ample when called via `pySplit`. -/
def pySplitF : Nat → Str → Str → List Str
  | 0, _, s => [s]
  | fuel + 1, sep, s =>
    if sep.isEmpty then [s]
    else
      match firstIdx sep s with
      | none => [s]
      | some i => s.take i :: pySplitF fuel sep (s.drop (i + sep.length))

/-- Python `s.split(sep)`: split `s` at every non-overlapping occurrence
of `sep`, scanning left to right. -/
def pySplit (sep s : Str) : List Str :=
  pySplitF (s.length + 1) sep s

example : pySplit "X".toList "aXbXc".toList = ["a".toList, "b".toList, "c".toList] := by decide

example : firstIdx "bc".toList "abcd".toList = some 1 := by decide

example : pyStrip "  hi ".toList = "hi".toList := by decide

/-! ### String constants of `src/main.py` (apostrophes written as escapes) -/

/-- The literal the LLM is told to answer with when the input is correct. -/
def correctMark : Str := "Correct!".toList

/-- The delimiter marker searched for in the correction response. -/
def ctMark : Str := "Corrected to:".toList

/-- A single period, the second split separator in `correct_input`. -/
def periodStr : Str := ".".toList

/-- The fallback correction value in `correct_input` (line 63). -/
def unknownStr : Str := "Unknown".toList

/-- The reasoning-tag opening delimiter stripped by `clean_response`. -/
def thinkOpen : Str := "<think>".toList

/-- The reasoning-tag closing delimiter stripped by `clean_response`. -/
def thinkClose : Str := "</think>".toList

/-- The chat exit keyword. -/
def exitWord : Str := "exit".toList

/-! ### `clean_response` (main.py lines 75-77)

`re.sub(r"<think>.*?</think>", "", response, flags=re.DOTALL).strip()`:
each non-overlapping leftmost match runs from a `<think>` to the first
`</think>` after it; scanning resumes after the removed segment.  -/

/-- Fuelled worker removing every `<think>…</think>` match, as `re.sub`
with a non-greedy body does: leftmost `<think>`, shortest extent, then
continue after the match. Fuel is ample when called via `stripThink`. -/
def stripThinkF : Nat → Str → Str
  | 0, s => s
  | fuel + 1, s =>
    match firstIdx thinkOpen s with
    | none => s
    | some i =>
      match firstIdx thinkClose (s.drop (i + thinkOpen.length)) with
      | none => s
      | some j =>
        s.take i ++
          stripThinkF fuel
            ((s.drop (i + thinkOpen.length)).drop (j + thinkClose.length))

/-- One pass of `re.sub(r"<think>.*?</think>", "", s, flags=re.DOTALL)`. -/
def stripThink (s : Str) : Str :=
  stripThinkF (s.length + 1) s

/-- `clean_response` (main.py line 77): strip reasoning tags, then trim. -/
def clean_response (s : Str) : Str :=
  pyStrip (stripThink s)

example : clean_response " <think>x\ny</think> ok ".toList = "ok".toList := by decide

example : clean_response "plain".toList = "plain".toList := by decide

/-! ### `correct_input` (main.py lines 52-72) -/

/-- A row of the `mistakes` table as inserted by `correct_input`. -/
structure MistakeRecord where
  user_input : Str
  mistake : Str
  correction : Str
  timestamp : Str
deriving DecidableEq, Repr

/-- The correction value computed by `correct_input` (lines 63-68):
`"Unknown"` unless `"Corrected to:"` occurs, in which case
`response.split("Corrected to:")[1].split(".")[0].strip()`.
(The `except IndexError` branch of line 67 is unreachable: a split on a
separator that occurs yields at least two parts.) -/
def correctionOf (response : Str) : Str :=
  if containsSub ctMark response then
    pyStrip (((pySplit periodStr ((pySplit ctMark response).getD 1 [])).getD 0 []))
  else unknownStr

/-- `correct_input` (main.py lines 52-72), with the LLM call factored
out: given the raw correction `response` and the wall-clock `now`,
returns the row inserted into `mistakes`, or `none` when the raw
response contains `"Correct!"` (line 60). -/
def correct_input (user_input response now : Str) : Option MistakeRecord :=
  if containsSub correctMark response then none
  else some ⟨user_input, user_input, correctionOf response, now⟩

/-! ### `get_scene_options` (main.py lines 31-49) -/

/-- The beginner scene list (main.py lines 33-37). -/
def beginnerScenes : List Str :=
  [ "You\u2019re at a market buying fruit.".toList,
    "You\u2019re greeting a neighbor in your new town.".toList,
    "You\u2019re asking for directions to a park.".toList ]

/-- The intermediate scene list (main.py lines 38-42). -/
def intermediateScenes : List Str :=
  [ "You\u2019re ordering a meal at a restaurant.".toList,
    "You\u2019re shopping for clothes in a store.".toList,
    "You\u2019re booking a hotel room over the phone.".toList ]

/-- The advanced scene list (main.py lines 43-47). -/
def advancedScenes : List Str :=
  [ "You\u2019re negotiating a business deal.".toList,
    "You\u2019re discussing a news article with a friend.".toList,
    "You\u2019re giving a presentation at work.".toList ]

/-- `get_scene_options` (main.py line 49):
`scenes.get(level.lower(), scenes["beginner"])`. -/
def get_scene_options (level : Str) : List Str :=
  if pyLower level = "beginner".toList then beginnerScenes
  else if pyLower level = "intermediate".toList then intermediateScenes
  else if pyLower level = "advanced".toList then advancedScenes
  else beginnerScenes

example : get_scene_options "Advanced".toList = advancedScenes := by decide

example : get_scene_options "french".toList = beginnerScenes := by decide

/-! ### `review_mistakes` (main.py lines 90-101)

`SELECT user_input, mistake, correction FROM mistakes` yields triples in
insertion order; the renderer numbers them from 1. -/

/-- A row of the review query: (user_input, mistake, correction). -/
abbrev ReviewRow := Str × Str × Str

/-- One numbered review line (main.py line 98), apostrophes escaped. -/
def mistakeLine (i : Nat) (row : ReviewRow) : Str :=
  (Nat.repr i).toList ++ ". You said: \x27".toList ++ row.1 ++
    "\x27 | Mistake: \x27".toList ++ row.2.1 ++
    "\x27 | Correction: \x27".toList ++ row.2.2 ++ "\x27\n".toList

/-- The loop of main.py lines 97-98: `enumerate(mistakes, i)`. -/
def mistakeLinesFrom : Nat → List ReviewRow → Str
  | _, [] => []
  | i, row :: rows => mistakeLine i row ++ mistakeLinesFrom (i + 1) rows

/-- `review_mistakes` (main.py lines 90-101), applied to the queried rows. -/
def review_mistakes (rows : List ReviewRow) : Str :=
  if rows = [] then "No mistakes recorded. Great job!".toList
  else
    "=== Mistake Review ===\n".toList ++ mistakeLinesFrom 1 rows ++
      (if 2 < rows.length then
        "Focus area: Work on verb conjugation and vocabulary.".toList
      else "Focus area: You\u2019re doing well, keep practicing!".toList)

/-- The projection performed by the review `SELECT`. -/
def toReviewRow (r : MistakeRecord) : ReviewRow :=
  (r.user_input, r.mistake, r.correction)

example : (Nat.repr 12).toList = ['1', '2'] := by decide

/-! ### The Streamlit session state machine (main.py lines 104-189)

One `step` models one script run that handles a committed user action:
pressing Next in setup, Start Chatting in scene selection, Send in chat,
or Start Over in review.  The two LLM calls of a chat turn are factored
into an environment; `none` models a raised exception, which aborts the
script run before any later mutation. -/

/-- The four values of `st.session_state.stage`. -/
inductive Stage
  | setup
  | scene_selection
  | chat
  | review
deriving DecidableEq, Repr

/-- The session fields of main.py lines 108-119 (`None` modelled as `[]`). -/
structure Session where
  stage : Stage
  target_lang : Str
  native_lang : Str
  level : Str
  scene : Str
  chat_history : List Str
deriving DecidableEq, Repr

/-- The freshly initialised session of main.py lines 108-119. -/
def initSession : Session :=
  ⟨.setup, [], [], [], [], []⟩

/-- A committed user action, one per script run. -/
inductive Action
  | submitSetup (target native level : Str)
  | submitScene (choice : Str)
  | sendChat (text : Str)
  | startOver
deriving DecidableEq, Repr

/-- The external collaborators of one chat turn: the two raw LLM replies
(`none` = the call raises) and the wall-clock timestamp. -/
structure Env where
  botResp : Option Str
  corrResp : Option Str
  now : Str
deriving DecidableEq, Repr

/-- Observable side effects of a step, in order of occurrence. -/
inductive Effect
  | llmResponseCall
  | llmCorrectionCall
  | dbInsert (rec : MistakeRecord)
deriving DecidableEq, Repr

/-- The outcome of one script run: the new session, the `mistakes`
table, and the effect trace. -/
structure StepResult where
  session : Session
  store : List MistakeRecord
  effects : List Effect
deriving DecidableEq, Repr

/-- One script run of `main` (main.py lines 125-186) handling action
`a` in session `s` over store `store`. Python truthiness of a string is
non-emptiness.  In the chat branch, `generate_response` runs first
(line 169), then `correct_input` (line 170) whose insert precedes the
three transcript appends (lines 174-176); an exception in either LLM
call aborts the run with every earlier mutation kept (there are none). -/
def step (s : Session) (store : List MistakeRecord) (a : Action) (env : Env) :
    StepResult :=
  match s.stage, a with
  | .setup, .submitSetup t n l =>
    if t ≠ [] ∧ n ≠ [] ∧ l ≠ [] then
      ⟨{ s with
          stage := .scene_selection
          target_lang := t
          native_lang := n
          level := l }, store, []⟩
    else ⟨s, store, []⟩
  | .scene_selection, .submitScene choice =>
    ⟨{ s with
        stage := .chat
        scene := choice
        chat_history := s.chat_history ++ ["Scene: ".toList ++ choice] },
      store, []⟩
  | .chat, .sendChat text =>
    if text = [] then ⟨s, store, []⟩
    else if pyLower text = exitWord then
      ⟨{ s with stage := .review }, store, []⟩
    else
      match env.botResp with
      | none => ⟨s, store, [.llmResponseCall]⟩
      | some rawBot =>
        match env.corrResp with
        | none => ⟨s, store, [.llmResponseCall, .llmCorrectionCall]⟩
        | some rawCorr =>
          let bot := clean_response rawBot
          let inserted := (correct_input text rawCorr env.now).toList
          let feedback := clean_response rawCorr
          ⟨{ s with chat_history := s.chat_history ++
              ["You: ".toList ++ text, "Bot: ".toList ++ bot,
                "Feedback: ".toList ++ feedback] },
            store ++ inserted,
            [.llmResponseCall, .llmCorrectionCall] ++
              inserted.map Effect.dbInsert⟩
  | .review, .startOver => ⟨initSession, store, []⟩
  | _, _ => ⟨s, store, []⟩

/-- Sessions reachable from the initial session by any run of steps
(over every store content and environment). -/
inductive Reachable : Session → Prop
  | init : Reachable initSession
  | next (s : Session) (store : List MistakeRecord) (a : Action) (env : Env) :
      Reachable s → Reachable (step s store a env).session

/-! ## Claim C6: the exit keyword -/

/-- C6: for every chat-stage input whose lower-cased form equals
"exit", the state machine moves from Chat to Review; the transcript,
every other session field and the mistake store are unchanged, and no
LLM call or store write happens (empty effect trace). -/
theorem exit_input_transitions_to_review (s : Session)
    (store : List MistakeRecord) (text : Str) (env : Env)
    (hstage : s.stage = .chat) (hexit : pyLower text = exitWord) :
    step s store (.sendChat text) env =
      ⟨{ s with stage := .review }, store, []⟩ := by
  have htext : text ≠ [] := by
    intro h
    rw [h] at hexit
    exact absurd hexit (by decide)
  obtain ⟨st, tl, nl, lv, sc, hist⟩ := s
  simp only at hstage
  subst hstage
  simp only [step]
  rw [if_neg htext, if_pos hexit]

/-- Witness for C6: sending "EXIT" in a concrete chat session. -/
theorem exit_input_transitions_to_review_witness :
    step ⟨.chat, "Spanish".toList, "English".toList, "Beginner".toList,
        "m".toList, ["Scene: m".toList]⟩ [] (.sendChat "EXIT".toList)
        ⟨none, none, "t".toList⟩ =
      ⟨⟨.review, "Spanish".toList, "English".toList, "Beginner".toList,
        "m".toList, ["Scene: m".toList]⟩, [], []⟩ :=
  exit_input_transitions_to_review _ _ _ _ rfl (by decide)

/-! ## Claim C7: reset -/

/-- C7: the Start Over action from the Review stage resets the stage to
Setup and empties the transcript and the target/native/level/scene
fields, while leaving the mistake store untouched (and performing no
LLM call or store write). -/
theorem reset_clears_session_keeps_store (s : Session)
    (store : List MistakeRecord) (env : Env) (hstage : s.stage = .review) :
    step s store .startOver env =
      ⟨⟨.setup, [], [], [], [], []⟩, store, []⟩ := by
  obtain ⟨st, tl, nl, lv, sc, hist⟩ := s
  simp only at hstage
  subst hstage
  rfl

/-- Witness for C7: resetting a concrete review session with one stored
mistake keeps the stored row. -/
theorem reset_clears_session_keeps_store_witness :
    step ⟨.review, "Spanish".toList, "English".toList, "Beginner".toList,
        "m".toList, ["Scene: m".toList]⟩
        [⟨"hi".toList, "hi".toList, "Unknown".toList, "t".toList⟩]
        .startOver ⟨none, none, "t".toList⟩ =
      ⟨⟨.setup, [], [], [], [], []⟩,
        [⟨"hi".toList, "hi".toList, "Unknown".toList, "t".toList⟩], []⟩ :=
  reset_clears_session_keeps_store _ _ _ rfl

/-! ## Claim C3: empty or whitespace-only chat input -/

/-- Counterexample to C3: a whitespace-only (non-empty) chat input is
not filtered by `if user_input:` — it triggers a full turn: both LLM
calls run and three transcript lines are appended. -/
theorem whitespace_input_not_filtered :
    (step ⟨.chat, "Spanish".toList, "English".toList, "Beginner".toList,
        "m".toList, []⟩ [] (.sendChat [' '])
        ⟨some "Hola".toList, some "Correct!".toList, "t".toList⟩).effects =
      [.llmResponseCall, .llmCorrectionCall] ∧
    (step ⟨.chat, "Spanish".toList, "English".toList, "Beginner".toList,
        "m".toList, []⟩ [] (.sendChat [' '])
        ⟨some "Hola".toList, some "Correct!".toList, "t".toList⟩).session.chat_history ≠
      [] := by
  constructor
  · decide
  · decide

/-- C3 (amended: only the empty string is filtered): an empty chat-stage
input performs no transition, appends nothing, makes no LLM call and no
store write; the session is unchanged. -/
theorem empty_chat_input_noop (s : Session) (store : List MistakeRecord)
    (env : Env) (hstage : s.stage = .chat) :
    step s store (.sendChat []) env = ⟨s, store, []⟩ := by
  obtain ⟨st, tl, nl, lv, sc, hist⟩ := s
  simp only at hstage
  subst hstage
  rfl

/-- Witness for C3's amended theorem at a concrete chat session. -/
theorem empty_chat_input_noop_witness :
    step ⟨.chat, "Spanish".toList, "English".toList, "Beginner".toList,
        "m".toList, []⟩ [] (.sendChat [])
        ⟨some "Hola".toList, some "Correct!".toList, "t".toList⟩ =
      ⟨⟨.chat, "Spanish".toList, "English".toList, "Beginner".toList,
        "m".toList, []⟩, [], []⟩ :=
  empty_chat_input_noop _ _ _ rfl

/-! ## Claim C8: a failed LLM call aborts the turn atomically -/

/-- C8: if either LLM call of a chat turn raises, the turn has no
effect on the session (no transcript lines, stage stays Chat) or the
store (no MistakeRecord), and each LLM call is attempted at most once
(no retry): the effect trace is one failed response call, or a response
call followed by the failed correction call. -/
theorem llm_failure_turn_atomic (s : Session) (store : List MistakeRecord)
    (text : Str) (env : Env) (hstage : s.stage = .chat) (h1 : text ≠ [])
    (h2 : pyLower text ≠ exitWord)
    (hfail : env.botResp = none ∨ env.corrResp = none) :
    (step s store (.sendChat text) env).session = s ∧
    (step s store (.sendChat text) env).store = store ∧
    ((step s store (.sendChat text) env).effects = [.llmResponseCall] ∨
      (step s store (.sendChat text) env).effects =
        [.llmResponseCall, .llmCorrectionCall]) := by
  obtain ⟨st, tl, nl, lv, sc, hist⟩ := s
  obtain ⟨bot, corr, now⟩ := env
  simp only at hstage
  subst hstage
  simp only at hfail
  simp only [step]
  rw [if_neg h1, if_neg h2]
  cases bot with
  | none => exact ⟨rfl, rfl, Or.inl rfl⟩
  | some rawBot =>
    cases corr with
    | none => exact ⟨rfl, rfl, Or.inr rfl⟩
    | some rawCorr =>
      rcases hfail with h | h <;> exact absurd h (by simp)

/-- Witness for C8: a failing correction call in a concrete session. -/
theorem llm_failure_turn_atomic_witness :
    (step ⟨.chat, "Spanish".toList, "English".toList, "Beginner".toList,
        "m".toList, []⟩ [] (.sendChat "Hola".toList)
        ⟨some "Hola".toList, none, "t".toList⟩).session =
      ⟨.chat, "Spanish".toList, "English".toList, "Beginner".toList,
        "m".toList, []⟩ ∧
    (step ⟨.chat, "Spanish".toList, "English".toList, "Beginner".toList,
        "m".toList, []⟩ [] (.sendChat "Hola".toList)
        ⟨some "Hola".toList, none, "t".toList⟩).store = [] ∧
    ((step ⟨.chat, "Spanish".toList, "English".toList, "Beginner".toList,
        "m".toList, []⟩ [] (.sendChat "Hola".toList)
        ⟨some "Hola".toList, none, "t".toList⟩).effects =
      [.llmResponseCall] ∨
      (step ⟨.chat, "Spanish".toList, "English".toList, "Beginner".toList,
        "m".toList, []⟩ [] (.sendChat "Hola".toList)
        ⟨some "Hola".toList, none, "t".toList⟩).effects =
      [.llmResponseCall, .llmCorrectionCall]) :=
  llm_failure_turn_atomic _ _ _ _ rfl (by decide) (by decide)
    (Or.inr rfl)

/-! ## Claim C9: the session-field invariant -/

/-- The invariant of spec section 3: `scene` is non-empty only in the
Chat and Review stages, and the three setup fields are non-empty
outside the Setup stage. -/
def SessionInv (s : Session) : Prop :=
  (s.scene ≠ [] → s.stage = .chat ∨ s.stage = .review) ∧
  (s.stage ≠ .setup → s.target_lang ≠ [] ∧ s.native_lang ≠ [] ∧ s.level ≠ [])

/-- C9: every reachable session state satisfies the invariant: `scene`
is non-empty only when the stage is Chat or Review, and target, native
and level are all non-empty whenever the stage is not Setup. -/
theorem reachable_session_invariant (s : Session) (h : Reachable s) :
    SessionInv s := by
  induction h with
  | init => exact ⟨fun hc => absurd rfl hc, fun hc => absurd rfl hc⟩
  | next s store a env hs ih =>
    obtain ⟨st, tl, nl, lv, sc, hist⟩ := s
    obtain ⟨inv1, inv2⟩ := ih
    cases st with
    | setup =>
      cases a with
      | submitSetup t n l =>
        simp only [step]
        split_ifs with hok
        · refine ⟨fun hsc => ?_, fun _ => ⟨hok.1, hok.2.1, hok.2.2⟩⟩
          exfalso
          rcases inv1 hsc with hh | hh <;> exact nomatch hh
        · exact ⟨inv1, inv2⟩
      | submitScene c => exact ⟨inv1, inv2⟩
      | sendChat t => exact ⟨inv1, inv2⟩
      | startOver => exact ⟨inv1, inv2⟩
    | scene_selection =>
      cases a with
      | submitSetup t n l => exact ⟨inv1, inv2⟩
      | submitScene c =>
        exact ⟨fun _ => Or.inl rfl, fun _ => inv2 (fun hh => nomatch hh)⟩
      | sendChat t => exact ⟨inv1, inv2⟩
      | startOver => exact ⟨inv1, inv2⟩
    | chat =>
      cases a with
      | submitSetup t n l => exact ⟨inv1, inv2⟩
      | submitScene c => exact ⟨inv1, inv2⟩
      | sendChat text =>
        simp only [step]
        split_ifs with he hex
        · exact ⟨inv1, inv2⟩
        · exact ⟨fun _ => Or.inr rfl, fun _ => inv2 (fun hh => nomatch hh)⟩
        · obtain ⟨bot, corr, now⟩ := env
          cases bot with
          | none => exact ⟨inv1, inv2⟩
          | some rawBot =>
            cases corr with
            | none => exact ⟨inv1, inv2⟩
            | some rawCorr =>
              exact ⟨fun _ => Or.inl rfl, fun _ => inv2 (fun hh => nomatch hh)⟩
      | startOver => exact ⟨inv1, inv2⟩
    | review =>
      cases a with
      | submitSetup t n l => exact ⟨inv1, inv2⟩
      | submitScene c => exact ⟨inv1, inv2⟩
      | sendChat t => exact ⟨inv1, inv2⟩
      | startOver => exact ⟨fun hc => absurd rfl hc, fun hc => absurd rfl hc⟩

/-- Witness for C9: the initial session is reachable and satisfies the
invariant. -/
theorem reachable_session_invariant_witness : SessionInv initSession :=
  reachable_session_invariant _ Reachable.init

/-! ## Claim C2: the mistake-vs-correct decision -/

/-- Counterexample to C2: the decision is taken on the raw correction
response (main.py line 60), not on the cleaned text. Here the cleaned
response does not contain "Correct!", yet no record is persisted for
the turn, because the raw response does. -/
theorem cleaned_decision_claim_false :
    containsSub correctMark
        (clean_response "<think>Correct!</think>Eso esta mal".toList) = false ∧
    (step ⟨.chat, "Spanish".toList, "English".toList, "Beginner".toList,
        "m".toList, []⟩ [] (.sendChat "hi".toList)
        ⟨some "Hola".toList,
          some "<think>Correct!</think>Eso esta mal".toList,
          "t".toList⟩).store = [] := by
  constructor
  · decide
  · decide

/-- C2 (amended: decision on the raw response): for a chat turn whose
LLM calls return `rawBot` and `rawCorr`, if `rawCorr` contains the
literal "Correct!" no record is persisted; otherwise exactly one record
is appended, whose user_input and mistake fields are the raw user input
verbatim and whose correction is `correctionOf rawCorr`. -/
theorem mistake_logging_decision_raw (s : Session)
    (store : List MistakeRecord) (text : Str) (env : Env)
    (rawBot rawCorr : Str) (hstage : s.stage = .chat) (h1 : text ≠ [])
    (h2 : pyLower text ≠ exitWord) (hb : env.botResp = some rawBot)
    (hc : env.corrResp = some rawCorr) :
    (containsSub correctMark rawCorr = true →
      (step s store (.sendChat text) env).store = store) ∧
    (containsSub correctMark rawCorr = false →
      (step s store (.sendChat text) env).store =
        store ++ [⟨text, text, correctionOf rawCorr, env.now⟩]) := by
  obtain ⟨st, tl, nl, lv, sc, hist⟩ := s
  obtain ⟨bot, corr, now⟩ := env
  simp only at hstage hb hc
  subst hstage
  subst hb
  subst hc
  simp only [step]
  rw [if_neg h1, if_neg h2]
  constructor
  · intro htrue
    simp [correct_input, htrue]
  · intro hfalse
    simp [correct_input, hfalse]

/-- Witness for C2's amended theorem: a flagged turn appends exactly
one record carrying the raw input. -/
theorem mistake_logging_decision_raw_witness :
    (step ⟨.chat, "Spanish".toList, "English".toList, "Beginner".toList,
        "m".toList, []⟩ [] (.sendChat "ola amigo".toList)
        ⟨some "Hola".toList, some "Mal. Corrected to: Hola amigo.".toList,
          "t".toList⟩).store =
      [] ++ [⟨"ola amigo".toList, "ola amigo".toList,
        correctionOf "Mal. Corrected to: Hola amigo.".toList, "t".toList⟩] :=
  (mistake_logging_decision_raw _ _ _ _ _ _ rfl (by decide) (by decide)
    rfl rfl).2 (by decide)

/-! ## Claim C5: the scene catalog -/

/-- Counterexample to C5: the catalog string uses the right single
quotation mark U+2019, so the claimed string with an ASCII apostrophe
is not among the Beginner scenes. -/
theorem beginner_scene_ascii_apostrophe_absent :
    "You\x27re at a market buying fruit.".toList ∉
      get_scene_options "Beginner".toList := by
  decide

/-- C5 (amended: the market scene is spelled with U+2019): every level
yields exactly 3 scenes; the level is matched case-insensitively
against the three keys; any level matching none of them yields exactly
the Beginner list; and the Beginner list contains the market scene. -/
theorem scene_catalog_amended (level : Str) :
    (get_scene_options level).length = 3 ∧
    (pyLower level = "beginner".toList →
      get_scene_options level = beginnerScenes) ∧
    (pyLower level = "intermediate".toList →
      get_scene_options level = intermediateScenes) ∧
    (pyLower level = "advanced".toList →
      get_scene_options level = advancedScenes) ∧
    (pyLower level ≠ "beginner".toList →
      pyLower level ≠ "intermediate".toList →
      pyLower level ≠ "advanced".toList →
      get_scene_options level = beginnerScenes) ∧
    "You\u2019re at a market buying fruit.".toList ∈ beginnerScenes := by
  unfold get_scene_options
  split_ifs with h1 h2 h3
  · exact ⟨by decide, fun _ => rfl,
      fun hh => absurd (h1.symm.trans hh) (by decide),
      fun hh => absurd (h1.symm.trans hh) (by decide),
      fun hb _ _ => absurd h1 hb, by decide⟩
  · exact ⟨by decide, fun hh => absurd hh h1, fun _ => rfl,
      fun hh => absurd (h2.symm.trans hh) (by decide),
      fun _ hi _ => absurd h2 hi, by decide⟩
  · exact ⟨by decide, fun hh => absurd hh h1, fun hh => absurd hh h2,
      fun _ => rfl, fun _ _ ha => absurd h3 ha, by decide⟩
  · exact ⟨by decide, fun hh => absurd hh h1, fun hh => absurd hh h2,
      fun hh => absurd hh h3, fun _ _ _ => rfl, by decide⟩

/-- Witness for C5's amended theorem: an unknown level falls back to
the Beginner list. -/
theorem scene_catalog_amended_witness :
    get_scene_options "SWAHILI".toList = beginnerScenes :=
  (scene_catalog_amended _).2.2.2.2.1 (by decide) (by decide) (by decide)

/-! ## Claim C10: the review summary -/

/-- The counter loop of `review_mistakes` renders exactly the lines of
Python `enumerate(mistakes, i)`, concatenated in order. -/
theorem mistakeLinesFrom_eq_enum (i : Nat) (rows : List ReviewRow) :
    mistakeLinesFrom i rows =
      ((List.enumFrom i rows).map fun p => mistakeLine p.1 p.2).foldr
        (· ++ ·) [] := by
  induction rows generalizing i with
  | nil => rfl
  | cons r rs ih => simp [mistakeLinesFrom, List.enumFrom, ih]

/-- C10: the review summary is a total function of the stored rows: on
zero rows it is exactly "No mistakes recorded. Great job!"; on n ≥ 1
rows it is the header, one numbered line per row in store order
(`enumerate` from 1 over user_input, mistake, correction), and a focus
line urging work on verb conjugation and vocabulary exactly when n > 2
and otherwise saying to keep practicing. -/
theorem review_rendering (rows : List ReviewRow) :
    review_mistakes [] = "No mistakes recorded. Great job!".toList ∧
    (rows ≠ [] →
      review_mistakes rows =
        "=== Mistake Review ===\n".toList ++
          (((List.enumFrom 1 rows).map fun p => mistakeLine p.1 p.2).foldr
            (· ++ ·) []) ++
          (if 2 < rows.length then
            "Focus area: Work on verb conjugation and vocabulary.".toList
          else
            "Focus area: You\u2019re doing well, keep practicing!".toList)) := by
  constructor
  · rfl
  · intro hne
    unfold review_mistakes
    rw [if_neg hne, mistakeLinesFrom_eq_enum]

/-- Witness for C10 on a concrete single-row store. -/
theorem review_rendering_witness :
    review_mistakes [("Hi".toList, "Hi".toList, "Hello".toList)] =
      "=== Mistake Review ===\n".toList ++
        (((List.enumFrom 1 [("Hi".toList, "Hi".toList, "Hello".toList)]).map
          fun p => mistakeLine p.1 p.2).foldr (· ++ ·) []) ++
        (if 2 < ([("Hi".toList, "Hi".toList, "Hello".toList)] :
            List ReviewRow).length then
          "Focus area: Work on verb conjugation and vocabulary.".toList
        else
          "Focus area: You\u2019re doing well, keep practicing!".toList) :=
  (review_rendering _).2 (by decide)

/-! ## Substring-position lemmas for `firstIdx` -/

/-- A successful `firstIdx` yields a positional decomposition. -/
theorem firstIdx_some_decomp {pat s : Str} {i : Nat}
    (h : firstIdx pat s = some i) :
    s = s.take i ++ pat ++ s.drop (i + pat.length) := by
  induction s generalizing i with
  | nil =>
    unfold firstIdx at h
    by_cases hp : pat.isEmpty
    · simp [hp] at h
      subst h
      simp [List.isEmpty_iff.mp hp]
    · simp [hp] at h
  | cons c rest ih =>
    unfold firstIdx at h
    by_cases hp : pat.isPrefixOf (c :: rest)
    · simp [hp] at h
      subst h
      obtain ⟨t, ht⟩ := List.isPrefixOf_iff_prefix.mp hp
      simp only [List.take_zero, List.nil_append, Nat.zero_add]
      rw [← ht, List.drop_left]
    · simp [hp, Option.map_eq_some] at h
      obtain ⟨j, hj, rfl⟩ := h
      have hrec := ih hj
      have harith : j + 1 + pat.length = (j + pat.length) + 1 := by omega
      rw [List.take_succ_cons, harith, List.drop_succ_cons]
      simpa [List.cons_append] using congrArg (c :: ·) hrec

/-- A prefix occurrence is found at index 0. -/
theorem firstIdx_of_prefix {pat s : Str} (h : pat <+: s) :
    firstIdx pat s = some 0 := by
  cases s with
  | nil => simp [firstIdx, List.isEmpty_iff.mpr (List.prefix_nil.mp h)]
  | cons c r => simp [firstIdx, List.isPrefixOf_iff_prefix.mpr h]

/-- On a string of the shape `a ++ pat ++ b`, `firstIdx` finds `pat` at
an index no later than `a.length`. -/
theorem firstIdx_of_append (pat a b : Str) :
    ∃ i, firstIdx pat (a ++ pat ++ b) = some i ∧ i ≤ a.length := by
  induction a with
  | nil =>
    exact ⟨0, firstIdx_of_prefix (by simp), Nat.le_refl 0⟩
  | cons c as ih =>
    obtain ⟨i, hi, hle⟩ := ih
    by_cases hp : pat.isPrefixOf (c :: (as ++ pat ++ b))
    · refine ⟨0, ?_, Nat.zero_le _⟩
      show (if pat.isPrefixOf (c :: (as ++ pat ++ b)) then some 0
        else (firstIdx pat (as ++ pat ++ b)).map (· + 1)) = some 0
      rw [if_pos hp]
    · refine ⟨i + 1, ?_, by simpa using Nat.succ_le_succ hle⟩
      show (if pat.isPrefixOf (c :: (as ++ pat ++ b)) then some 0
        else (firstIdx pat (as ++ pat ++ b)).map (· + 1)) = some (i + 1)
      rw [if_neg hp, hi]
      rfl

/-- `firstIdx` succeeds exactly on the infix occurrences of `pat`. -/
theorem firstIdx_isSome_iff (pat s : Str) :
    (firstIdx pat s).isSome = true ↔ pat <:+: s := by
  constructor
  · intro h
    cases hfi : firstIdx pat s with
    | none => rw [hfi] at h; exact absurd h (by simp)
    | some i =>
      exact ⟨s.take i, s.drop (i + pat.length), (firstIdx_some_decomp hfi).symm⟩
  · rintro ⟨a, b, rfl⟩
    obtain ⟨i, hi, hle⟩ := firstIdx_of_append pat a b
    rw [hi]
    rfl

/-! ## Claim C4: `stripReasoningMarkup` -/

/-- An input has a "marker pair" when a `</think>` occurs after the
leftmost `<think>` — exactly the condition under which the regex of
`clean_response` has a match. -/
def hasThinkPair (s : Str) : Bool :=
  match firstIdx thinkOpen s with
  | none => false
  | some i => (firstIdx thinkClose (s.drop (i + thinkOpen.length))).isSome

/-- `hasThinkPair` holds exactly when the input splits as
`a ++ "<think>" ++ b` with `"</think>"` occurring in `b`. -/
theorem hasThinkPair_iff (s : Str) :
    hasThinkPair s = true ↔
      ∃ a b, s = a ++ thinkOpen ++ b ∧ thinkClose <:+: b := by
  constructor
  · intro h
    unfold hasThinkPair at h
    cases hfi : firstIdx thinkOpen s with
    | none => rw [hfi] at h; exact absurd h (by simp)
    | some i =>
      rw [hfi] at h
      exact ⟨s.take i, s.drop (i + thinkOpen.length), firstIdx_some_decomp hfi,
        (firstIdx_isSome_iff _ _).mp h⟩
  · rintro ⟨a, b, rfl, hclose⟩
    obtain ⟨i, hi, hle⟩ := firstIdx_of_append thinkOpen a b
    unfold hasThinkPair
    rw [hi, firstIdx_isSome_iff]
    have hdrop : ((a ++ thinkOpen) ++ b).drop (i + thinkOpen.length) =
        (a ++ thinkOpen).drop (i + thinkOpen.length) ++ b := by
      rw [List.drop_append_eq_append_drop]
      have hz : i + thinkOpen.length - (a ++ thinkOpen).length = 0 := by
        simp only [List.length_append]
        omega
      rw [hz, List.drop_zero]
    rw [hdrop]
    obtain ⟨p, q, hpq⟩ := hclose
    exact ⟨(a ++ thinkOpen).drop (i + thinkOpen.length) ++ p, q, by
      rw [← hpq]; simp [List.append_assoc]⟩

/-- With no marker pair the regex has no match and `stripThink` is the
identity. -/
theorem stripThink_of_no_pair {s : Str} (h : hasThinkPair s = false) :
    stripThink s = s := by
  unfold hasThinkPair at h
  cases hfi : firstIdx thinkOpen s with
  | none => simp [stripThink, stripThinkF, hfi]
  | some i =>
    cases hfc : firstIdx thinkClose (s.drop (i + thinkOpen.length)) with
    | none => simp [stripThink, stripThinkF, hfi, hfc]
    | some j =>
      exfalso
      simp [hfi, hfc] at h

/-- `pyStrip` written with Mathlib's right-sided dropWhile. -/
theorem pyStrip_eq (s : Str) :
    pyStrip s = List.rdropWhile pyWs (List.dropWhile pyWs s) := rfl

/-- Python `strip` is idempotent. -/
theorem pyStrip_idem (s : Str) : pyStrip (pyStrip s) = pyStrip s := by
  rw [pyStrip_eq, pyStrip_eq]
  have h1 : List.dropWhile pyWs (List.rdropWhile pyWs (List.dropWhile pyWs s)) =
      List.rdropWhile pyWs (List.dropWhile pyWs s) := by
    cases hr : List.rdropWhile pyWs (List.dropWhile pyWs s) with
    | nil => simp
    | cons c r =>
      have hpre := List.rdropWhile_prefix pyWs (List.dropWhile pyWs s)
      rw [hr] at hpre
      obtain ⟨w, hw⟩ := hpre
      have hlen : 0 < (List.dropWhile pyWs s).length := by
        rw [← hw]
        simp
      have hhead := List.dropWhile_get_zero_not pyWs s hlen
      have hc : (List.dropWhile pyWs s).get ⟨0, hlen⟩ = c := by
        simp [← hw]
      rw [hc] at hhead
      exact List.dropWhile_cons_of_neg hhead
  rw [h1, List.rdropWhile_idempotent]

/-- The stripped text sits inside the original. -/
theorem pyStrip_infix (s : Str) : ∃ u v, s = u ++ pyStrip s ++ v := by
  obtain ⟨u, hu⟩ := List.dropWhile_suffix (l := s) pyWs
  obtain ⟨v, hv⟩ := List.rdropWhile_prefix pyWs (List.dropWhile pyWs s)
  refine ⟨u, v, ?_⟩
  rw [pyStrip_eq, List.append_assoc, hv, hu]

/-- Counterexample to C4: `clean_response` is not idempotent. Removing
the inner pair of `"<thi<think>x</think>nk>ok</think>"` glues a fresh
`"<think>ok</think>"` together, which only a second pass removes. -/
theorem clean_response_not_idempotent :
    clean_response (clean_response "<thi<think>x</think>nk>ok</think>".toList) ≠
      clean_response "<thi<think>x</think>nk>ok</think>".toList := by
  decide

/-- C4 (amended: idempotence restricted to inputs with no marker pair):
on any input with no `<think>…</think>` pair, `clean_response` returns
the trimmed input unchanged (in particular it does not raise), and
applying it twice yields the same result as once. -/
theorem clean_response_no_pair_trim (s : Str)
    (h : hasThinkPair s = false) :
    clean_response s = pyStrip s ∧
    clean_response (clean_response s) = clean_response s := by
  have hs : clean_response s = pyStrip s := by
    unfold clean_response
    rw [stripThink_of_no_pair h]
  refine ⟨hs, ?_⟩
  rw [hs]
  have hstrip : hasThinkPair (pyStrip s) = false := by
    by_contra hcon
    rw [Bool.not_eq_false] at hcon
    obtain ⟨a, b, hab, hclose⟩ := (hasThinkPair_iff _).mp hcon
    obtain ⟨u, v, huv⟩ := pyStrip_infix s
    have hpair : hasThinkPair s = true := by
      rw [hasThinkPair_iff]
      refine ⟨u ++ a, b ++ v, ?_, ?_⟩
      · rw [huv, hab]
        simp [List.append_assoc]
      · obtain ⟨p, q, hpq⟩ := hclose
        exact ⟨p, q ++ v, by rw [← hpq]; simp [List.append_assoc]⟩
    rw [hpair] at h
    exact absurd h (by simp)
  have h2 : clean_response (pyStrip s) = pyStrip (pyStrip s) := by
    unfold clean_response
    rw [stripThink_of_no_pair hstrip]
  rw [h2, pyStrip_idem]

/-- Witness for C4's amended theorem: an unclosed `<think>` is no pair,
so the text is only trimmed, stably. -/
theorem clean_response_no_pair_trim_witness :
    clean_response "  <think> unclosed ".toList =
      pyStrip "  <think> unclosed ".toList ∧
    clean_response (clean_response "  <think> unclosed ".toList) =
      clean_response "  <think> unclosed ".toList :=
  clean_response_no_pair_trim _ (by decide)

/-! ## Split lemmas for claim C1 -/

/-- The fuel of `pySplitF` is irrelevant once it exceeds the input
length. -/
theorem pySplitF_congr (sep : Str) :
    ∀ f g s, s.length < f → s.length < g →
      pySplitF f sep s = pySplitF g sep s := by
  intro f
  induction f with
  | zero =>
    intro g s hf hg
    exact absurd hf (by omega)
  | succ f ih =>
    intro g s hf hg
    cases g with
    | zero => exact absurd hg (by omega)
    | succ g =>
      show (if sep.isEmpty then [s] else
        match firstIdx sep s with
        | none => [s]
        | some i => s.take i :: pySplitF f sep (s.drop (i + sep.length))) =
        (if sep.isEmpty then [s] else
        match firstIdx sep s with
        | none => [s]
        | some i => s.take i :: pySplitF g sep (s.drop (i + sep.length)))
      by_cases hsep : sep.isEmpty
      · rw [if_pos hsep, if_pos hsep]
      · rw [if_neg hsep, if_neg hsep]
        cases hfi : firstIdx sep s with
        | none => rfl
        | some i =>
          have hb := firstIdx_some_bound hfi
          have hlen : 1 ≤ sep.length := by
            cases sep with
            | nil => simp at hsep
            | cons a l => simp
          have hd : (s.drop (i + sep.length)).length < f := by
            simp only [List.length_drop]
            omega
          have hd2 : (s.drop (i + sep.length)).length < g := by
            simp only [List.length_drop]
            omega
          show s.take i :: pySplitF f sep (s.drop (i + sep.length)) =
            s.take i :: pySplitF g sep (s.drop (i + sep.length))
          rw [ih _ _ hd hd2]

/-- `pySplit` on a string free of the separator. -/
theorem pySplit_eq_single {sep s : Str} (h : firstIdx sep s = none) :
    pySplit sep s = [s] := by
  show (if sep.isEmpty then [s] else
    match firstIdx sep s with
    | none => [s]
    | some i => s.take i :: pySplitF s.length sep (s.drop (i + sep.length))) =
    [s]
  by_cases hsep : sep.isEmpty
  · rw [if_pos hsep]
  · rw [if_neg hsep, h]

/-- `pySplit` unfolds at the leftmost separator occurrence. -/
theorem pySplit_eq_cons {sep s : Str} {i : Nat} (hsep : ¬ sep.isEmpty)
    (h : firstIdx sep s = some i) :
    pySplit sep s = s.take i :: pySplit sep (s.drop (i + sep.length)) := by
  show (if sep.isEmpty then [s] else
    match firstIdx sep s with
    | none => [s]
    | some i => s.take i :: pySplitF s.length sep (s.drop (i + sep.length))) =
    _
  rw [if_neg hsep, h]
  have hb := firstIdx_some_bound h
  have hlen : 1 ≤ sep.length := by
    cases sep with
    | nil => simp at hsep
    | cons a l => simp
  have hd : (s.drop (i + sep.length)).length < s.length := by
    simp only [List.length_drop]
    omega
  show s.take i :: pySplitF s.length sep (s.drop (i + sep.length)) =
    s.take i :: pySplit sep (s.drop (i + sep.length))
  rw [pySplitF_congr sep s.length ((s.drop (i + sep.length)).length + 1) _ hd
    (by omega)]
  rfl

/-- The head of a Python split is the text before the first separator
occurrence (all of `s` when the separator is absent). -/
theorem pySplit_head (sep s : Str) (hsep : ¬ sep.isEmpty) :
    (pySplit sep s).getD 0 [] =
      s.take ((firstIdx sep s).getD s.length) := by
  cases hfi : firstIdx sep s with
  | none =>
    rw [pySplit_eq_single hfi]
    simp
  | some i =>
    rw [pySplit_eq_cons hsep hfi]
    simp

/-- Where a single-character separator is first found in a truncated
string. -/
theorem firstIdx_singleton_take (c : Char) (s : Str) (a : Nat) :
    firstIdx [c] (s.take a) =
      match firstIdx [c] s with
      | none => none
      | some p => if p < a then some p else none := by
  induction s generalizing a with
  | nil => simp [firstIdx]
  | cons x xs ih =>
    cases a with
    | zero =>
      cases hfi : firstIdx [c] (x :: xs) with
      | none => simp [firstIdx]
      | some p => simp [firstIdx]
    | succ a =>
      rw [List.take_succ_cons]
      by_cases hc : c = x
      · subst hc
        have h1 : firstIdx [c] (c :: xs.take a) = some 0 := by
          simp [firstIdx, List.isPrefixOf]
        have h2 : firstIdx [c] (c :: xs) = some 0 := by
          simp [firstIdx, List.isPrefixOf]
        rw [h1, h2]
        simp
      · have hp1 : ¬ (List.isPrefixOf [c] (x :: xs.take a) = true) := by
          simp [List.isPrefixOf, hc]
        have hp2 : ¬ (List.isPrefixOf [c] (x :: xs) = true) := by
          simp [List.isPrefixOf, hc]
        show (if List.isPrefixOf [c] (x :: xs.take a) then some 0
          else (firstIdx [c] (xs.take a)).map (· + 1)) = _
        rw [if_neg hp1, ih]
        show _ = (match (if List.isPrefixOf [c] (x :: xs) then some 0
          else (firstIdx [c] xs).map (· + 1)) with
          | none => none
          | some p => if p < a + 1 then some p else none)
        rw [if_neg hp2]
        cases hfi : firstIdx [c] xs with
        | none => rfl
        | some p =>
          by_cases hlt : p < a
          · simp [hlt, Nat.succ_lt_succ hlt]
          · have hge : ¬ (p + 1 < a + 1) := by omega
            simp [hlt, hge]

/-- Truncation variant when the single character is absent. -/
theorem firstIdx_singleton_take_none {c : Char} {s : Str} (a : Nat)
    (h : firstIdx [c] s = none) : firstIdx [c] (s.take a) = none := by
  rw [firstIdx_singleton_take, h]

/-- Truncation variant when the single character first occurs at `p`. -/
theorem firstIdx_singleton_take_some {c : Char} {s : Str} {p : Nat} (a : Nat)
    (h : firstIdx [c] s = some p) :
    firstIdx [c] (s.take a) = if p < a then some p else none := by
  rw [firstIdx_singleton_take, h]

/-! ## Claim C1: extraction of the correction -/

/-- Formalisation of the amended claim wording: when "Corrected to:"
occurs, the correction is the substring after its first occurrence, up
to and excluding the first following period or the next occurrence of
the marker, whichever comes first, trimmed; when the marker is absent
the correction is "Unknown". -/
def correctionSpec (response : Str) : Str :=
  match firstIdx ctMark response with
  | none => unknownStr
  | some i =>
    let rest := response.drop (i + ctMark.length)
    let cutP := (firstIdx periodStr rest).getD rest.length
    let cutM := (firstIdx ctMark rest).getD rest.length
    pyStrip (rest.take (min cutP cutM))

theorem correctionSpec_none {response : Str}
    (hfi : firstIdx ctMark response = none) :
    correctionSpec response = unknownStr := by
  unfold correctionSpec
  rw [hfi]

theorem correctionSpec_some {response : Str} {i : Nat}
    (hfi : firstIdx ctMark response = some i) :
    correctionSpec response =
      pyStrip ((response.drop (i + ctMark.length)).take
        (min
          ((firstIdx periodStr (response.drop (i + ctMark.length))).getD
            (response.drop (i + ctMark.length)).length)
          ((firstIdx ctMark (response.drop (i + ctMark.length))).getD
            (response.drop (i + ctMark.length)).length))) := by
  unfold correctionSpec
  rw [hfi]

/-- The split-based extraction of `correct_input`, evaluated in the
marker-present case. -/
theorem correction_marker_case {response : Str} {i : Nat}
    (hfi : firstIdx ctMark response = some i) :
    correctionOf response =
      pyStrip ((response.drop (i + ctMark.length)).take
        (min
          ((firstIdx periodStr (response.drop (i + ctMark.length))).getD
            (response.drop (i + ctMark.length)).length)
          ((firstIdx ctMark (response.drop (i + ctMark.length))).getD
            (response.drop (i + ctMark.length)).length))) := by
  have hcs : containsSub ctMark response = true := by
    unfold containsSub
    rw [hfi]
    rfl
  unfold correctionOf
  rw [if_pos hcs, pySplit_eq_cons (by decide) hfi]
  have hsecond : (response.take i ::
      pySplit ctMark (response.drop (i + ctMark.length))).getD 1 [] =
      (pySplit ctMark (response.drop (i + ctMark.length))).getD 0 [] := rfl
  rw [hsecond, pySplit_head ctMark _ (by decide),
    pySplit_head periodStr _ (by decide)]
  have hper : periodStr = ['.'] := rfl
  rw [hper]
  cases hfp : firstIdx ['.'] (response.drop (i + ctMark.length)) with
  | none =>
    rw [firstIdx_singleton_take_none _ hfp]
    simp only [Option.getD_none, List.take_length]
    congr 1
    rw [List.take_eq_take]
    omega
  | some p =>
    rw [firstIdx_singleton_take_some _ hfp]
    by_cases hlt : p < (firstIdx ctMark
        (response.drop (i + ctMark.length))).getD
        (response.drop (i + ctMark.length)).length
    · rw [if_pos hlt]
      simp only [Option.getD_some, List.take_take]
    · rw [if_neg hlt]
      simp only [Option.getD_none, Option.getD_some, List.take_length]
      congr 1
      rw [Nat.min_eq_right (by omega)]

/-- `correct_input` extracts exactly the amended specification. -/
theorem correctionOf_eq_spec (response : Str) :
    correctionOf response = correctionSpec response := by
  cases hfi : firstIdx ctMark response with
  | none =>
    have hcs : containsSub ctMark response = false := by
      unfold containsSub
      rw [hfi]
      rfl
    unfold correctionOf
    rw [correctionSpec_none hfi, if_neg (by simp [hcs])]
  | some i =>
    rw [correction_marker_case hfi, correctionSpec_some hfi]

/-- Counterexample to C1: when the marker is absent, the persisted
correction is the string "Unknown" (main.py line 63), not the claimed
sentinel. -/
theorem correction_no_marker_not_sentinel :
    (correct_input "hi".toList "Eso esta mal".toList "t".toList).map
        MistakeRecord.correction = some unknownStr ∧
    unknownStr ≠ "Parsing error - check LLM output.".toList := by
  constructor
  · decide
  · decide

/-- C1 (amended: the fallback is "Unknown", and the extracted substring
stops at the first period or the next marker occurrence, whichever
comes first): for every correction response without "Correct!", the
persisted correction equals `correctionSpec` of the response. -/
theorem correction_extraction_amended (user_input response now : Str)
    (h : containsSub correctMark response = false) :
    (correct_input user_input response now).map MistakeRecord.correction =
      some (correctionSpec response) := by
  unfold correct_input
  rw [if_neg (by simp [h]), correctionOf_eq_spec]
  rfl

/-- Witness for C1's amended theorem on a concrete flagged response. -/
theorem correction_extraction_amended_witness :
    containsSub correctMark "Mal. Corrected to: Hola amigo. Mas".toList =
      false ∧
    (correct_input "hola".toList
        "Mal. Corrected to: Hola amigo. Mas".toList "t".toList).map
        MistakeRecord.correction =
      some (correctionSpec "Mal. Corrected to: Hola amigo. Mas".toList) :=
  ⟨by decide, correction_extraction_amended _ _ _ (by decide)⟩

end LangBot
